import Mathlib

/-!
Verification of the APIScout ingestion/deduplication/persistence core.

Shallow embedding of:
- src/backend/utils/ExtensionFilter.js  (ExtensionFilter, LogStore)
- src/extension/services/FingerprintEngine.js  (FingerprintEngine)
- src/unnamed/part_000  (CONFIG, RequestProcessor)

JavaScript strings are modelled as Lean String / List Char, JS numbers that
hold nonnegative integers as Nat, JS Maps as association lists in insertion
order, and absent object properties as Option.none.
-/

set_option maxRecDepth 10000

/-! ## Generic JS string helpers -/

/-- One decimal digit n (0..9) as a character. -/
def digitChar (n : Nat) : Char := Char.ofNat (48 + n)

/-- Fuel-driven decimal digits of a natural number, most significant first.
The fuel only drives structural recursion; `fuel = n + 1` always suffices
because the value shrinks by a factor of 10 each step. -/
def natCharsAux : Nat → Nat → List Char
  | 0, _ => []
  | fuel + 1, n =>
    if n < 10 then [digitChar n]
    else natCharsAux fuel (n / 10) ++ [digitChar (n % 10)]

/-- Model of JS `String(n)` for a nonnegative integer n. -/
def natChars (n : Nat) : List Char := natCharsAux (n + 1) n

/-- Model of JS `s.startsWith(c)` for a one-character prefix, on char lists. -/
def headIs (l : List Char) (c : Char) : Bool :=
  match l with
  | [] => false
  | d :: _ => d == c

/-- Does `hay` start with `needle` (char-list version of startsWith)? -/
def startsWithL : List Char → List Char → Bool
  | [], _ => true
  | _ :: _, [] => false
  | p :: ps, c :: cs => p == c && startsWithL ps cs

/-- Does `p` hold of some suffix of the list? Used to model regex search,
which tries a match at every position of the subject string. -/
def anySuffix (p : List Char → Bool) : List Char → Bool
  | [] => p []
  | c :: rest => p (c :: rest) || anySuffix p rest

/-- Model of JS `hay.includes(needle)` / regex test of a literal pattern. -/
def containsL (needle hay : List Char) : Bool :=
  anySuffix (startsWithL needle) hay

/-- Model of JS `hay.includes(needle)` on Lean strings. -/
def containsS (hay needle : String) : Bool := containsL needle.data hay.data

/-- Model of JS `String.prototype.toLowerCase` (ASCII range, which is all the
source ever feeds it). -/
def jsToLower (s : String) : String := String.mk (s.data.map Char.toLower)

/-- Model of JS `String.prototype.toUpperCase` (ASCII range). -/
def jsToUpper (s : String) : String := String.mk (s.data.map Char.toUpper)

/-- Model of JS `s.split('.')` on char lists: always returns at least one
(possibly empty) group; a dot always delimits groups. -/
def jsSplitDot : List Char → List (List Char)
  | [] => [[]]
  | c :: rest =>
    match jsSplitDot rest with
    | [] => [[]]
    | g :: gs => if c == '.' then [] :: g :: gs else (c :: g) :: gs

/-! ## SHA-256 (the platform hash used by Node `crypto.createHash('sha256')`
and by WebCrypto `crypto.subtle.digest('SHA-256', ...)`), over byte lists. -/

/-- 2^32, the word modulus of SHA-256. -/
def M32 : Nat := 4294967296

/-- Right rotation of a 32-bit word. -/
def rotr32 (n x : Nat) : Nat := ((x >>> n) ||| (x <<< (32 - n))) % M32

/-- SHA-256 Σ0. -/
def bSig0 (x : Nat) : Nat := rotr32 2 x ^^^ rotr32 13 x ^^^ rotr32 22 x

/-- SHA-256 Σ1. -/
def bSig1 (x : Nat) : Nat := rotr32 6 x ^^^ rotr32 11 x ^^^ rotr32 25 x

/-- SHA-256 σ0. -/
def sSig0 (x : Nat) : Nat := rotr32 7 x ^^^ rotr32 18 x ^^^ (x >>> 3)

/-- SHA-256 σ1. -/
def sSig1 (x : Nat) : Nat := rotr32 17 x ^^^ rotr32 19 x ^^^ (x >>> 10)

/-- SHA-256 Ch, with bitwise complement written as xor with 2^32 - 1. -/
def chFn (x y z : Nat) : Nat := (x &&& y) ^^^ ((x ^^^ 4294967295) &&& z)

/-- SHA-256 Maj. -/
def majFn (x y z : Nat) : Nat := (x &&& y) ^^^ (x &&& z) ^^^ (y &&& z)

/-- Trial-division primality test, adequate for the small inputs below. -/
def isPrimeNat (n : Nat) : Bool :=
  2 ≤ n && (((List.range n).drop 2).all (fun d => n % d != 0))

/-- The first `count` primes below `bound`. -/
def firstPrimes (count bound : Nat) : List Nat :=
  ((List.range bound).filter isPrimeNat).take count

/-- Greatest `r < 2^40` with `pow r ≤ n`, by binary search on the bits. -/
def searchRoot (pow : Nat → Nat) (n : Nat) : Nat :=
  (List.range 40).foldl
    (fun r i => let c := r + (1 <<< (39 - i)); if pow c ≤ n then c else r) 0

/-- The first 32 fractional bits of the given root of p (FIPS 180-4
defines the SHA-256 constants this way): floor of root(p · 2^scale),
reduced mod 2^32. -/
def fracRoot32 (pow : Nat → Nat) (scale : Nat) (p : Nat) : Nat :=
  searchRoot pow (p <<< scale) % 4294967296

/-- SHA-256 round constants: fractional parts of the cube roots of the
first 64 primes (checked against FIPS 180-4 by the "abc" vector below). -/
def sha256K : List Nat := (firstPrimes 64 320).map (fracRoot32 (fun c => c * c * c) 96)

/-- SHA-256 initial hash value: fractional parts of the square roots of
the first 8 primes. -/
def sha256H0 : List Nat := (firstPrimes 8 20).map (fracRoot32 (fun c => c * c) 64)

/-- Append the next word of the message schedule. -/
def sha256ExtendStep (ws : List Nat) : List Nat :=
  let t := ws.length
  ws ++ [(sSig1 (ws.getD (t - 2) 0) + ws.getD (t - 7) 0 +
          sSig0 (ws.getD (t - 15) 0) + ws.getD (t - 16) 0) % M32]

/-- Expand a 16-word block into the 64-word message schedule. -/
def sha256Schedule (block : List Nat) : List Nat :=
  (List.range 48).foldl (fun acc _ => sha256ExtendStep acc) block

/-- One SHA-256 compression round on the 8-word working state. -/
def sha256Round (st : List Nat) (kw : Nat × Nat) : List Nat :=
  match st with
  | [a, b, c, d, e, f, g, h] =>
    let t1 := (h + bSig1 e + chFn e f g + kw.1 + kw.2) % M32
    let t2 := (bSig0 a + majFn a b c) % M32
    [(t1 + t2) % M32, a, b, c, (d + t1) % M32, e, f, g]
  | other => other

/-- Compress one 16-word block into the running hash. -/
def sha256Compress (h : List Nat) (block : List Nat) : List Nat :=
  let st := (sha256K.zip (sha256Schedule block)).foldl sha256Round h
  (h.zip st).map (fun p => (p.1 + p.2) % M32)

/-- `k` big-endian bytes of `x` (most significant first). -/
def bytesBE : Nat → Nat → List Nat
  | 0, _ => []
  | k + 1, x => (x >>> (8 * k)) % 256 :: bytesBE k x

/-- SHA-256 message padding: 0x80, zeros to 56 mod 64, 64-bit bit length. -/
def sha256Pad (msg : List Nat) : List Nat :=
  let l := msg.length
  msg ++ 0x80 :: List.replicate ((120 - (l + 1) % 64) % 64) 0 ++ bytesBE 8 (8 * l)

/-- Group bytes into big-endian 32-bit words. -/
def bytesToWords : List Nat → List Nat
  | b0 :: b1 :: b2 :: b3 :: rest =>
    (((b0 * 256 + b1) * 256 + b2) * 256 + b3) :: bytesToWords rest
  | _ => []

/-- Fuel-driven chunking of the word list into 16-word blocks. -/
def chunk16Aux : Nat → List Nat → List (List Nat)
  | 0, _ => []
  | _ + 1, [] => []
  | fuel + 1, w :: rest =>
    ((w :: rest).take 16) :: chunk16Aux fuel ((w :: rest).drop 16)

/-- Chunk a word list into 16-word blocks. -/
def chunk16 (ws : List Nat) : List (List Nat) := chunk16Aux ws.length ws

/-- SHA-256 of a byte list, as the 32-byte digest. -/
def sha256Bytes (msg : List Nat) : List Nat :=
  let hfin := (chunk16 (bytesToWords (sha256Pad msg))).foldl sha256Compress sha256H0
  (hfin.map (bytesBE 4)).flatten

/-- UTF-8 encoding of one character (what both `TextEncoder` and Node's
string hashing with default encoding produce). -/
def utf8Char (c : Char) : List Nat :=
  let n := c.toNat
  if n < 128 then [n]
  else if n < 2048 then [0xc0 ||| (n >>> 6), 0x80 ||| (n &&& 0x3f)]
  else if n < 65536 then
    [0xe0 ||| (n >>> 12), 0x80 ||| ((n >>> 6) &&& 0x3f), 0x80 ||| (n &&& 0x3f)]
  else
    [0xf0 ||| (n >>> 18), 0x80 ||| ((n >>> 12) &&& 0x3f),
     0x80 ||| ((n >>> 6) &&& 0x3f), 0x80 ||| (n &&& 0x3f)]

/-- UTF-8 encoding of a string as a byte list. -/
def utf8Encode (s : String) : List Nat := (s.data.map utf8Char).flatten

/-! ## Hex rendering of the digest, on both sides of the boundary -/

/-- Lowercase hex digit (0..15). -/
def hexDigitChar (n : Nat) : Char :=
  if n < 10 then Char.ofNat (48 + n) else Char.ofNat (87 + n)

/-- A byte as two lowercase hex characters (high nibble first). -/
def byteHexPair (b : Nat) : List Char := [hexDigitChar (b / 16), hexDigitChar (b % 16)]

/-- Model of Node's `Hash.digest('hex')`: two lowercase hex chars per byte. -/
def nodeHexDigest (bs : List Nat) : String := String.mk ((bs.map byteHexPair).flatten)

/-- Fuel-driven model of JS `Number.prototype.toString(16)` for a
nonnegative integer: lowercase hex digits, most significant first. -/
def jsToHexAux : Nat → Nat → List Char
  | 0, _ => []
  | fuel + 1, n =>
    if n < 16 then [hexDigitChar n]
    else jsToHexAux fuel (n / 16) ++ [hexDigitChar (n % 16)]

/-- Model of JS `n.toString(16)`. -/
def jsToHex (n : Nat) : List Char := jsToHexAux (n + 1) n

/-- Model of JS `s.padStart(2, '0')`. -/
def padStart2 (l : List Char) : List Char := List.replicate (2 - l.length) '0' ++ l

/-- Hex rendering used by FingerprintEngine:
`hashArray.map(b => b.toString(16).padStart(2, '0')).join('')`. -/
def subtleHexDigest (bs : List Nat) : String :=
  String.join (bs.map (fun b => String.mk (padStart2 (jsToHex b))))

/-! ## The two fingerprint implementations (C2) -/

/-- src/extension/services/FingerprintEngine.js, generateFingerprint:
WebCrypto SHA-256 of `method:hostname:normalizedPath`, manual hex join. -/
def FingerprintEngine.generateFingerprint (method hostname normalizedPath : String) : String :=
  subtleHexDigest (sha256Bytes (utf8Encode (method ++ ":" ++ hostname ++ ":" ++ normalizedPath)))

/-- src/backend/utils/ExtensionFilter.js, ExtensionFilter.generateFingerprint:
Node crypto SHA-256 of `method:hostname:normalizedPath`, digest('hex'). -/
def ExtensionFilter.generateFingerprint (method hostname normalizedPath : String) : String :=
  nodeHexDigest (sha256Bytes (utf8Encode (method ++ ":" ++ hostname ++ ":" ++ normalizedPath)))

/-- The fingerprint as the spec words it (§3): the lowercase-hex SHA-256
digest of the byte sequence `method:hostname:normalizedPath`. -/
def specFingerprint (method hostname normalizedPath : String) : String :=
  String.mk ((sha256Bytes (utf8Encode (method ++ ":" ++ hostname ++ ":" ++ normalizedPath))).map byteHexPair).flatten

/-! ## ExtensionFilter (src/backend/utils/ExtensionFilter.js) -/

/-- Static file extensions that should never be logged
(ExtensionFilter.IGNORE_EXTENSIONS, a JS Set modelled as its element list). -/
def ExtensionFilter.IGNORE_EXTENSIONS : List String :=
  ["jpg", "jpeg", "png", "gif", "svg", "webp",
   "css",
   "woff", "woff2", "ttf", "eot", "otf",
   "mp4", "mp3", "webm", "ogg", "m4a", "aac", "flac",
   "ico", "map",
   "zip", "tar", "gz", "7z", "rar",
   "pdf", "doc", "docx", "xls", "xlsx"]

/-- ExtensionFilter.NOISE_PATTERNS: each regex in the source is a literal
substring pattern (with `?` marking one optional letter in `images?` and
`fonts?`), so each `pattern.test(path)` is substring containment. The
patterns carry no `i` flag: they are case-sensitive. -/
def ExtensionFilter.NOISE_PATTERNS : List (String → Bool) :=
  [fun p => containsS p "/xjs/",
   fun p => containsS p "/_/js/",
   fun p => containsS p "/collect",
   fun p => containsS p "/log?",
   fun p => containsS p "$rpc/google.internal",
   fun p => containsS p "/gen_204",
   fun p => containsS p "/fp_204",
   fun p => containsS p "/complete/search",
   fun p => containsS p "/js/",
   fun p => containsS p "/css/",
   fun p => containsS p "/image/" || containsS p "/images/",
   fun p => containsS p "/static/",
   fun p => containsS p "/assets/",
   fun p => containsS p "/font/" || containsS p "/fonts/"]

/-- `normalizedPath.split('.').pop().toLowerCase()` from shouldIgnore. -/
def ExtensionFilter.pathExt (normalizedPath : String) : String :=
  jsToLower (String.mk ((jsSplitDot normalizedPath.data).getLastD []))

/-- ExtensionFilter.shouldIgnore: extension check, then noise patterns.
The method and hostname parameters exist in the source signature but are
never consulted by the body. -/
def ExtensionFilter.shouldIgnore (_method _hostname normalizedPath : String) : Bool :=
  if ExtensionFilter.IGNORE_EXTENSIONS.contains (ExtensionFilter.pathExt normalizedPath) then
    true
  else if ExtensionFilter.NOISE_PATTERNS.any (fun pattern => pattern normalizedPath) then
    true
  else
    false

/-- Loopback/local hostname test as the capture side implements it
(RequestProcessor.shouldIgnoreRequest in src/unnamed/part_000): the
lowercased hostname contains "localhost" or "127.0.0.1", or is "[::1]". -/
def isLoopbackLocal (hostname : String) : Bool :=
  containsS (jsToLower hostname) "localhost" ||
  containsS (jsToLower hostname) "127.0.0.1" ||
  jsToLower hostname == "[::1]"

/-! ## CONFIG and RequestProcessor (src/unnamed/part_000) -/

/-- CONFIG.ACTION_WORDS, including the duplicated "api" literal of the
source list. -/
def CONFIG.ACTION_WORDS : List String :=
  ["login", "auth", "user", "checkout", "order",
   "signup", "payment", "api", "api", "profile",
   "account", "transaction", "purchase"]

/-- RequestProcessor.getRootDomain: keep the whole hostname when it has at
most two dot-separated labels, else `parts.slice(-2).join('.')`. -/
def RequestProcessor.getRootDomain (hostname : String) : String :=
  let parts := (jsSplitDot hostname.data).map String.mk
  if parts.length ≤ 2 then hostname
  else String.intercalate "." (parts.drop (parts.length - 2))

/-- RequestProcessor.isSameDomain: equality of root domains. -/
def RequestProcessor.isSameDomain (hostname1 hostname2 : String) : Bool :=
  RequestProcessor.getRootDomain hostname1 == RequestProcessor.getRootDomain hostname2

/-- Spec wording of getRootDomain's slice: the last two dot-separated
labels, joined with a dot. -/
def lastTwoLabels (hostname : String) : String :=
  String.intercalate "." ((((jsSplitDot hostname.data).map String.mk).reverse.take 2).reverse)

/-- RequestProcessor.hasActionWords: falsy path gives false, else lowercase
containment of any CONFIG.ACTION_WORDS entry. -/
def RequestProcessor.hasActionWords (path : String) : Bool :=
  if path == "" then false
  else CONFIG.ACTION_WORDS.any (fun word => containsS (jsToLower path) word)

/-- RequestProcessor.isStateChangingMethod: `method &&
['POST','PUT','DELETE','PATCH'].includes(method.toUpperCase())`; the falsy
empty string yields false. -/
def RequestProcessor.isStateChangingMethod (method : String) : Bool :=
  if method == "" then false
  else ["POST", "PUT", "DELETE", "PATCH"].contains (jsToUpper method)

/-- Regex /login|logout|signin|signup|auth|session/i as case-insensitive
containment of one of the alternatives. -/
def authPattern (path : String) : Bool :=
  ["login", "logout", "signin", "signup", "auth", "session"].any
    (fun w => containsS (jsToLower path) w)

/-- After `/v` and at least one digit: accept on `/`, keep consuming
digits, reject otherwise (the backtracking result of `\d+\/`). -/
def vDigitsSlash : List Char → Bool
  | [] => false
  | c :: rest => if c == '/' then true else if c.isDigit then vDigitsSlash rest else false

/-- After `/v`: require one digit, then vDigitsSlash. -/
def vNumTail : List Char → Bool
  | [] => false
  | c :: rest => c.isDigit && vDigitsSlash rest

/-- One position of the regex /\/api\/|\/v\d+\/|\/graphql/i (on the
lowercased path). -/
def apiShapeAt (cs : List Char) : Bool :=
  startsWithL "/api/".data cs || startsWithL "/graphql".data cs ||
  (match cs with
   | '/' :: 'v' :: rest => vNumTail rest
   | _ => false)

/-- Regex /\/api\/|\/v\d+\/|\/graphql/i over the whole path. -/
def apiPattern (path : String) : Bool := anySuffix apiShapeAt (jsToLower path).data

/-- Regex /analytics|tracking|telemetry|beacon|pixel|metric/i. -/
def infraPattern (path : String) : Bool :=
  ["analytics", "tracking", "telemetry", "beacon", "pixel", "metric"].any
    (fun w => containsS (jsToLower path) w)

/-- JS `statusCode && String(statusCode).startsWith('5')` for a Nat status
(0 models the falsy absent/zero status). -/
def status5xxTest (statusCode : Nat) : Bool :=
  decide (statusCode ≠ 0) && headIs (natChars statusCode) '5'

/-- JS `statusCode && String(statusCode).startsWith('4')`. -/
def status4xxTest (statusCode : Nat) : Bool :=
  decide (statusCode ≠ 0) && headIs (natChars statusCode) '4'

/-- Result record of RequestProcessor.classifyRequest. -/
structure Classification where
  tags : List String
  score : Nat
  critical : Bool
deriving DecidableEq

/-- The tag list built by classifyRequest's sequence of conditional
pushes, parameterized by the already-evaluated conditions. -/
def classifyTags (s5 s4 au ap sc inf biz pc : Bool) : List String :=
  (if s5 then ["server-error"] else []) ++
  (if s4 then ["client-error"] else []) ++
  (if au then ["authentication"] else []) ++
  (if ap then ["api-endpoint"] else []) ++
  (if sc then ["state-change"] else []) ++
  (if inf then ["infrastructure"] else []) ++
  (if biz then ["business-logic"] else []) ++
  (if pc then ["primary-context"] else ["cross-origin"])

/-- RequestProcessor.classifyRequest. The hostname parameter exists in the
source signature but the body never reads it. -/
def RequestProcessor.classifyRequest (method normalizedPath : String) (_hostname : String)
    (statusCode : Nat) (isPrimaryContext : Bool) : Classification :=
  let path := normalizedPath
  let tags := classifyTags (status5xxTest statusCode) (status4xxTest statusCode)
    (authPattern path) (apiPattern path) (RequestProcessor.isStateChangingMethod method)
    (infraPattern path) (RequestProcessor.hasActionWords path) isPrimaryContext
  let score :=
    (if RequestProcessor.isStateChangingMethod method then 30 else 0) +
    (if RequestProcessor.hasActionWords path then 25 else 0) +
    (if tags.contains "authentication" then 20 else 0) +
    (if tags.contains "api-endpoint" then 15 else 0) +
    (if status5xxTest statusCode then 10 else 0)
  { tags := tags, score := score, critical := decide (score ≥ 50) }

/-! ## LogStore (src/backend/utils/ExtensionFilter.js, LogStore part) -/

/-- A log entry / Record as LogStore stores it. The fingerprint key is
always set by the ingestion path; the remaining JS object properties may
be absent, which Option models. -/
structure LogEntry where
  fingerprint : String
  hostname : Option String := none
  method : Option String := none
  normalizedPath : Option String := none
  queryKeys : Option (List String) := none
  statusCodes : Option (List Nat) := none
  discoveryCount : Option Nat := none
  timestamp : Option Nat := none
  receivedAt : Option Nat := none
  lastPatched : Option Nat := none
deriving DecidableEq

/-- JS `Object.assign(existingLog, logEntry)`: every property present on
the incoming object overwrites the stored one; absent (undefined)
properties leave the stored value in place. -/
def objAssign (existing incoming : LogEntry) : LogEntry :=
  { fingerprint := incoming.fingerprint
    hostname := incoming.hostname.orElse fun _ => existing.hostname
    method := incoming.method.orElse fun _ => existing.method
    normalizedPath := incoming.normalizedPath.orElse fun _ => existing.normalizedPath
    queryKeys := incoming.queryKeys.orElse fun _ => existing.queryKeys
    statusCodes := incoming.statusCodes.orElse fun _ => existing.statusCodes
    discoveryCount := incoming.discoveryCount.orElse fun _ => existing.discoveryCount
    timestamp := incoming.timestamp.orElse fun _ => existing.timestamp
    receivedAt := incoming.receivedAt.orElse fun _ => existing.receivedAt
    lastPatched := incoming.lastPatched.orElse fun _ => existing.lastPatched }

/-- JS `Map.get` as first-match lookup in an insertion-ordered list. -/
def idxGet : List (String × Nat) → String → Option Nat
  | [], _ => none
  | p :: rest, k => if p.1 == k then some p.2 else idxGet rest k

/-- JS `Map.set`: replace the value at an existing key, else append. -/
def idxSet : List (String × Nat) → String → Nat → List (String × Nat)
  | [], k, v => [(k, v)]
  | p :: rest, k, v => if p.1 == k then (k, v) :: rest else p :: idxSet rest k v

/-- LogStore state. `logs` and `fingerprintIndex` mirror the source
fields, as do the `saveScheduled`/`savePending` flags. `timers` counts the
armed-but-unfired setTimeout callbacks and `writes` the durable
writeFileSync calls performed so far — the two observables of the
durability behaviour. -/
structure LogStore where
  logs : List LogEntry := []
  fingerprintIndex : List (String × Nat) := []
  saveScheduled : Bool := false
  savePending : Bool := false
  timers : Nat := 0
  writes : Nat := 0
deriving DecidableEq

/-- LogStore.add(logEntry): upsert keyed by `logEntry.fingerprint`.
On a hit the stored record is Object.assign-overwritten in place and its
lastPatched is set to now; on a miss receivedAt is set and the record is
appended with index `logs.length - 1` after the push. Both paths only mark
savePending — neither schedules a save. The inner `none` case (index entry
pointing outside `logs`) would crash the source on `Object.assign`; it is
unreachable from reachable stores (see the store invariant) and modelled
as leaving the state unchanged. `now` stands for `Date.now()`. -/
def LogStore.add (s : LogStore) (logEntry : LogEntry) (now : Nat) : LogStore × Bool :=
  match idxGet s.fingerprintIndex logEntry.fingerprint with
  | some index =>
    match s.logs[index]? with
    | some existingLog =>
      let merged := { objAssign existingLog logEntry with lastPatched := some now }
      ({ s with logs := s.logs.set index merged, savePending := true }, false)
    | none => (s, false)
  | none =>
    let entry := { logEntry with receivedAt := some now }
    ({ s with logs := s.logs ++ [entry],
              fingerprintIndex := idxSet s.fingerprintIndex logEntry.fingerprint s.logs.length,
              savePending := true }, true)

/-- LogStore.clear(): drop all records and the index, mark savePending. -/
def LogStore.clear (s : LogStore) : LogStore :=
  { s with logs := [], fingerprintIndex := [], savePending := true }

/-- LogStore.scheduleAsyncSave, the synchronous part: if a save is already
scheduled, only mark savePending and return; otherwise set saveScheduled
and arm one setTimeout. -/
def LogStore.scheduleAsyncSave (s : LogStore) : LogStore :=
  if s.saveScheduled then { s with savePending := true }
  else { s with saveScheduled := true, timers := s.timers + 1 }

/-- The setTimeout callback armed by scheduleAsyncSave: clear
saveScheduled, write the file, and if savePending was marked meanwhile,
clear it and re-run scheduleAsyncSave. Firing is possible only when a
timer is armed; with none armed the state is unchanged. -/
def LogStore.timerFire (s : LogStore) : LogStore :=
  if s.timers = 0 then s
  else
    let s1 := { s with timers := s.timers - 1, saveScheduled := false, writes := s.writes + 1 }
    if s1.savePending then LogStore.scheduleAsyncSave { s1 with savePending := false }
    else s1

/-- LogStore.saveNow(): write immediately and reset both flags. The source
never calls clearTimeout, so armed timers stay armed. -/
def LogStore.saveNow (s : LogStore) : LogStore :=
  { s with writes := s.writes + 1, saveScheduled := false, savePending := false }

/-- Events driving a LogStore run. -/
inductive StoreEv where
  | add (logEntry : LogEntry) (now : Nat)
  | clear
  | schedule
  | fire
  | saveNow
deriving DecidableEq

/-- One event step. -/
def stepEv (s : LogStore) (e : StoreEv) : LogStore :=
  match e with
  | .add entry now => (LogStore.add s entry now).1
  | .clear => LogStore.clear s
  | .schedule => LogStore.scheduleAsyncSave s
  | .fire => LogStore.timerFire s
  | .saveNow => LogStore.saveNow s

/-- The freshly constructed empty store. -/
def initStore : LogStore := {}

/-- Run a list of events from the empty store. -/
def applyEvents (evs : List StoreEv) : LogStore := evs.foldl stepEv initStore

/-- Fingerprints of the entries added over a run. -/
def addedFingerprints (evs : List StoreEv) : List String :=
  evs.filterMap fun e =>
    match e with
    | .add entry _ => some entry.fingerprint
    | _ => none

/-- Iterated scheduleAsyncSave calls (a burst of flush requests). -/
def schedN : Nat → LogStore → LogStore
  | 0, s => s
  | n + 1, s => schedN n (LogStore.scheduleAsyncSave s)

/-- The store invariant of the claim: index length equals record count,
index keys are distinct, every index entry points at a record carrying
that fingerprint, and every record is found by the index under its own
fingerprint. -/
def storeWF (s : LogStore) : Prop :=
  s.fingerprintIndex.length = s.logs.length ∧
  (s.fingerprintIndex.map Prod.fst).Nodup ∧
  (∀ fp i, idxGet s.fingerprintIndex fp = some i →
    ∃ e, s.logs[i]? = some e ∧ e.fingerprint = fp) ∧
  (∀ i e, s.logs[i]? = some e → idxGet s.fingerprintIndex e.fingerprint = some i)

/-- The spec §8 example observation, as the ingestion route hands it to
LogStore.add. -/
def obsLogin : LogEntry :=
  { fingerprint := "fp-login", hostname := some "api.example.com",
    method := some "POST", normalizedPath := some "/api/users/login",
    queryKeys := some [], statusCodes := some [200], discoveryCount := some 1 }

/-! ## LogStore.load (startup) -/

/-- Durable file content as load() can encounter it. -/
inductive FileContent where
  | absent
  | unparseable
  | jsonArr (logs : List LogEntry)
  | jsonOther
deriving DecidableEq

/-- Outcome of LogStore.load(): in-memory state, number of saveSync write
attempts, whether an error was logged, and the resulting file content. -/
structure LoadResult where
  logs : List LogEntry
  fingerprintIndex : List (String × Nat)
  saveAttempts : Nat
  errorLogged : Bool
  finalFile : FileContent
deriving DecidableEq

/-- Index rebuild in load(): `logs.forEach((log, i) => { if
(log.fingerprint) index.set(log.fingerprint, i) })`; the truthiness test
skips empty-string fingerprints. -/
def rebuildIndexAux : Nat → List LogEntry → List (String × Nat) → List (String × Nat)
  | _, [], idx => idx
  | i, log :: rest, idx =>
    rebuildIndexAux (i + 1) rest
      (if log.fingerprint == "" then idx else idxSet idx log.fingerprint i)

/-- Index rebuild over a loaded record list. -/
def rebuildIndex (logs : List LogEntry) : List (String × Nat) :=
  rebuildIndexAux 0 logs []

/-- LogStore.load(), with saveSync's possible write failure modelled by
`writeOk`. Every control path of the source returns normally (the outer
catch swallows the parse error and the missing-file write error, the
inner catch swallows the retry write error); the Except result makes
"no error propagates" explicit: load never produces `.error`.
Branches:
- parseable array: adopt it and rebuild the index, no write, no error log;
- parseable non-array: `Array.isArray` fails, fall back to `[]` silently —
  no write attempt, nothing logged as an error;
- unparseable: JSON.parse throws into the catch: log the error, fall back
  to `[]`, attempt one rewrite (its own failure is swallowed);
- absent: create the file with the empty array; if that write throws, the
  outer catch logs and retries the write once. -/
def LogStore.load (file : FileContent) (writeOk : Bool) : Except String LoadResult :=
  match file with
  | .jsonArr logs =>
    .ok { logs := logs, fingerprintIndex := rebuildIndex logs, saveAttempts := 0,
          errorLogged := false, finalFile := file }
  | .jsonOther =>
    .ok { logs := [], fingerprintIndex := [], saveAttempts := 0,
          errorLogged := false, finalFile := file }
  | .unparseable =>
    .ok { logs := [], fingerprintIndex := [], saveAttempts := 1,
          errorLogged := true,
          finalFile := if writeOk then .jsonArr [] else file }
  | .absent =>
    if writeOk then
      .ok { logs := [], fingerprintIndex := [], saveAttempts := 1,
            errorLogged := false, finalFile := .jsonArr [] }
    else
      .ok { logs := [], fingerprintIndex := [], saveAttempts := 2,
            errorLogged := true, finalFile := file }

/-! ## FingerprintEngine session cache (src/extension/services/FingerprintEngine.js) -/

/-- A session-cache value: `{ firstSeen, count }`. -/
structure SessEntry where
  firstSeen : Nat
  count : Nat
deriving DecidableEq

/-- CONFIG.SESSION_FINGERPRINT_LIMIT. -/
def SESSION_FINGERPRINT_LIMIT : Nat := 1000

/-- The comparator `(a, b) => b[1].firstSeen - a[1].firstSeen` as the
boolean order it sorts by: a may precede b when a's firstSeen is not
smaller (descending by firstSeen; ties keep insertion order, as JS sort
is stable — so is mergeSort). -/
def newerFirst (a b : String × SessEntry) : Bool :=
  b.2.firstSeen ≤ a.2.firstSeen

/-- FingerprintEngine.pruneOldFingerprints: when strictly over the limit,
sort descending by firstSeen, keep the first SESSION_FINGERPRINT_LIMIT
entries and rebuild the map in that order; otherwise leave the cache. -/
def pruneOldFingerprints (cache : List (String × SessEntry)) : List (String × SessEntry) :=
  if cache.length > SESSION_FINGERPRINT_LIMIT then
    (cache.mergeSort newerFirst).take SESSION_FINGERPRINT_LIMIT
  else cache

/-- JS `map.has(fp)` on the session cache. -/
def sessionHas : List (String × SessEntry) → String → Bool
  | [], _ => false
  | p :: rest, fp => p.1 == fp || sessionHas rest fp

/-- `cached.count++` on the first (only) entry with the key. -/
def bumpCount : List (String × SessEntry) → String → List (String × SessEntry)
  | [], _ => []
  | p :: rest, fp =>
    if p.1 == fp then (p.1, ⟨p.2.firstSeen, p.2.count + 1⟩) :: rest
    else p :: bumpCount rest fp

/-- The map-update half of updateFingerprint: bump the count on a hit,
append `{ firstSeen: now, count: 1 }` on a miss. -/
def sessionInsert (cache : List (String × SessEntry)) (fp : String) (now : Nat) :
    List (String × SessEntry) :=
  if sessionHas cache fp then bumpCount cache fp
  else cache ++ [(fp, ⟨now, 1⟩)]

/-- FingerprintEngine.updateFingerprint: map update, then prune. -/
def FingerprintEngine.updateFingerprint (cache : List (String × SessEntry))
    (fp : String) (now : Nat) : List (String × SessEntry) :=
  pruneOldFingerprints (sessionInsert cache fp now)

/-- The spec §8 example classification input, evaluated. -/
def loginClassification : Classification :=
  RequestProcessor.classifyRequest "POST" "/api/users/login" "api.example.com" 200 true

/-- Sanity anchor: the embedded SHA-256 reproduces the FIPS 180-4 "abc"
test vector. -/
example : nodeHexDigest (sha256Bytes (utf8Encode "abc")) =
    "ba7816bf8f01cfea414140de5dae2223b00361a396177a9cb410ff61f20015ad" := by decide

/-! ### Supporting lemmas for C2 -/

theorem bytesBE_lt (k x : Nat) : ∀ b ∈ bytesBE k x, b < 256 := by
  induction k generalizing x with
  | zero => intro b hb; simp [bytesBE] at hb
  | succ k ih =>
    intro b hb
    simp only [bytesBE, List.mem_cons] at hb
    rcases hb with h | h
    · subst h; exact Nat.mod_lt _ (by norm_num)
    · exact ih x b h

theorem sha256Bytes_lt (msg : List Nat) : ∀ b ∈ sha256Bytes msg, b < 256 := by
  intro b hb
  simp only [sha256Bytes, List.mem_flatten, List.mem_map] at hb
  obtain ⟨l, ⟨w, _, rfl⟩, hbl⟩ := hb
  exact bytesBE_lt 4 w b hbl

theorem padStart_jsToHex_eq_pair : ∀ b < 256, padStart2 (jsToHex b) = byteHexPair b := by
  decide

theorem string_data_inj {s t : String} (h : s.data = t.data) : s = t := by
  cases s; cases t; exact congrArg String.mk h

theorem join_foldl_data (l : List String) (acc : String) :
    (l.foldl (· ++ ·) acc).data = acc.data ++ (l.map String.data).flatten := by
  induction l generalizing acc with
  | nil => simp
  | cons x xs ih => simp [List.foldl_cons, ih, String.data_append]

theorem string_join_data (l : List String) :
    (String.join l).data = (l.map String.data).flatten := by
  simp [String.join, join_foldl_data]

/-- C2: for every (method, hostname, normalizedPath) triple, the capture-side
FingerprintEngine.generateFingerprint and the backend
ExtensionFilter.generateFingerprint compute the identical digest, and both
equal the spec's lowercase-hex SHA-256 of `method:hostname:normalizedPath`.
Determinism is inherent: both are pure functions of the triple, so equal
triples give equal digests across calls and restarts. -/
theorem fingerprint_agreement (method hostname normalizedPath : String) :
    FingerprintEngine.generateFingerprint method hostname normalizedPath =
      ExtensionFilter.generateFingerprint method hostname normalizedPath ∧
    ExtensionFilter.generateFingerprint method hostname normalizedPath =
      specFingerprint method hostname normalizedPath := by
  constructor
  · apply string_data_inj
    show (subtleHexDigest _).data = (nodeHexDigest _).data
    unfold subtleHexDigest nodeHexDigest
    rw [string_join_data]
    simp only [List.map_map]
    congr 1
    apply List.map_congr_left
    intro b hb
    show (String.mk (padStart2 (jsToHex b))).data = byteHexPair b
    simpa using padStart_jsToHex_eq_pair b (sha256Bytes_lt _ b hb)
  · rfl

/-! ## C10: isSameDomain is reflexive and symmetric -/

/-- C10: the primary-context domain comparison is reflexive and symmetric,
because it is equality of getRootDomain; and getRootDomain keeps exactly
the last two dot-separated labels when there are more than two (and the
whole hostname otherwise, which its definition states directly). -/
theorem isSameDomain_refl_symm :
    (∀ h, RequestProcessor.isSameDomain h h = true) ∧
    (∀ h1 h2, RequestProcessor.isSameDomain h1 h2 = RequestProcessor.isSameDomain h2 h1) ∧
    (∀ h, 2 < (jsSplitDot h.data).length →
      RequestProcessor.getRootDomain h = lastTwoLabels h) := by
  refine ⟨?_, ?_, ?_⟩
  · intro h
    simp [RequestProcessor.isSameDomain]
  · intro h1 h2
    simp only [RequestProcessor.isSameDomain]
    apply Bool.eq_iff_iff.mpr
    simp only [beq_iff_eq]
    exact eq_comm
  · intro h hlen
    have hgt : ¬ ((jsSplitDot h.data).length ≤ 2) := Nat.not_le_of_lt hlen
    simp only [RequestProcessor.getRootDomain, lastTwoLabels]
    rw [List.take_reverse, List.reverse_reverse]
    simp [hgt]

/-- Witness for C10's conditional part at a concrete hostname. -/
theorem isSameDomain_refl_symm_witness :
    RequestProcessor.isSameDomain "api.example.com" "api.example.com" = true ∧
    RequestProcessor.getRootDomain "api.example.com" = lastTwoLabels "api.example.com" :=
  ⟨isSameDomain_refl_symm.1 "api.example.com",
   isSameDomain_refl_symm.2.2 "api.example.com" (by decide)⟩

/-! ## C6: shouldIgnore -/

/-- C6 counterexample: the claim "for every observation whose hostname is
a loopback/local address shouldIgnore returns true regardless of method
and path" is false — the backend shouldIgnore never consults the
hostname, so a loopback hostname with a plain API path is kept. -/
theorem shouldIgnore_counterexample :
    isLoopbackLocal "localhost" = true ∧
    ExtensionFilter.shouldIgnore "GET" "localhost" "/api/users" = false := by
  constructor
  · decide
  · decide

/-- shouldIgnore as the boolean disjunction of its two checks. -/
theorem shouldIgnore_eq_or (m h p : String) :
    ExtensionFilter.shouldIgnore m h p =
      (ExtensionFilter.IGNORE_EXTENSIONS.contains (ExtensionFilter.pathExt p) ||
       ExtensionFilter.NOISE_PATTERNS.any fun pattern => pattern p) := by
  unfold ExtensionFilter.shouldIgnore
  cases hc : ExtensionFilter.IGNORE_EXTENSIONS.contains (ExtensionFilter.pathExt p) <;>
    cases ha : ExtensionFilter.NOISE_PATTERNS.any (fun pattern => pattern p) <;>
      simp [hc, ha]

/-- C6 amended: shouldIgnore(method, hostname, normalizedPath) is true iff
the path's last dot-segment, lowercased, is in the static-asset extension
set or the path matches one of the noise patterns; the hostname and
method arguments are never consulted (loopback filtering lives only in
the capture-side shouldIgnoreRequest). -/
theorem shouldIgnore_iff (m h m' h' p : String) :
    (ExtensionFilter.shouldIgnore m h p = true ↔
      ExtensionFilter.pathExt p ∈ ExtensionFilter.IGNORE_EXTENSIONS ∨
        ∃ pat ∈ ExtensionFilter.NOISE_PATTERNS, pat p = true) ∧
    ExtensionFilter.shouldIgnore m h p = ExtensionFilter.shouldIgnore m' h' p := by
  refine ⟨?_, rfl⟩
  rw [shouldIgnore_eq_or]
  simp only [Bool.or_eq_true, List.any_eq_true]
  constructor
  · rintro (hc | ha)
    · exact Or.inl (List.elem_iff.mp hc)
    · exact Or.inr ha
  · rintro (hc | ha)
    · exact Or.inl (List.elem_iff.mpr hc)
    · exact Or.inr ha

/-- Witness for C6's amended theorem at concrete inputs. -/
theorem shouldIgnore_iff_witness :
    (ExtensionFilter.shouldIgnore "GET" "cdn.example.com" "/static/app.css" = true ↔
      ExtensionFilter.pathExt "/static/app.css" ∈ ExtensionFilter.IGNORE_EXTENSIONS ∨
        ∃ pat ∈ ExtensionFilter.NOISE_PATTERNS, pat "/static/app.css" = true) ∧
    ExtensionFilter.shouldIgnore "GET" "cdn.example.com" "/static/app.css" =
      ExtensionFilter.shouldIgnore "POST" "api.example.com" "/static/app.css" :=
  shouldIgnore_iff "GET" "cdn.example.com" "POST" "api.example.com" "/static/app.css"

/-! ## C5: load() self-healing -/

/-- C5 counterexample: a durable file that parses to a non-array makes
load() fall back to an empty store, but no rewrite of the empty state is
attempted (saveAttempts = 0) and nothing is logged as an error — against
the claim that the unparseable-or-non-array case attempts a rewrite. -/
theorem load_nonarray_counterexample :
    LogStore.load FileContent.jsonOther true =
      Except.ok { logs := [], fingerprintIndex := [], saveAttempts := 0,
                  errorLogged := false, finalFile := FileContent.jsonOther } := by
  rfl

/-- C5 amended: load() never lets an error escape; an absent file is
synchronously initialized with the empty serialized state (one write
attempt — two when the first write itself fails, and then the file stays
absent); an unparseable file is logged, falls back to empty, and one
rewrite is attempted; a parseable non-array falls back to empty silently
with no rewrite attempt. -/
theorem load_self_healing :
    (∀ f w, (LogStore.load f w).isOk = true) ∧
    (∀ w, LogStore.load FileContent.absent w =
      Except.ok { logs := [], fingerprintIndex := [],
                  saveAttempts := if w then 1 else 2, errorLogged := !w,
                  finalFile := if w then FileContent.jsonArr [] else FileContent.absent }) ∧
    (∀ w, LogStore.load FileContent.unparseable w =
      Except.ok { logs := [], fingerprintIndex := [], saveAttempts := 1,
                  errorLogged := true,
                  finalFile := if w then FileContent.jsonArr [] else FileContent.unparseable }) ∧
    (∀ w logs, LogStore.load (FileContent.jsonArr logs) w =
      Except.ok { logs := logs, fingerprintIndex := rebuildIndex logs, saveAttempts := 0,
                  errorLogged := false, finalFile := FileContent.jsonArr logs }) ∧
    (∀ w, LogStore.load FileContent.jsonOther w =
      Except.ok { logs := [], fingerprintIndex := [], saveAttempts := 0,
                  errorLogged := false, finalFile := FileContent.jsonOther }) := by
  refine ⟨?_, ?_, ?_, ?_, ?_⟩
  · intro f w
    cases f <;> cases w <;> rfl
  · intro w; cases w <;> rfl
  · intro w; cases w <;> rfl
  · intro w logs; rfl
  · intro w; rfl

/-! ## C8: saveNow -/

/-- C8 counterexample: after scheduleAsyncSave has armed the debounce
timer, saveNow resets the flags but does not cancel the timeout: one
timer remains armed, and its firing performs a further durable write with
no intervening mutation — against the claim that after saveNow no
debounce-scheduled write remains pending. -/
theorem saveNow_counterexample :
    (LogStore.saveNow (LogStore.scheduleAsyncSave initStore)).timers = 1 ∧
    (LogStore.timerFire (LogStore.saveNow (LogStore.scheduleAsyncSave initStore))).writes =
      (LogStore.saveNow (LogStore.scheduleAsyncSave initStore)).writes + 1 := by
  constructor <;> rfl

/-- C8 amended: saveNow writes immediately and resets the saveScheduled
and savePending flags, but it does not cancel an armed timeout; an
already-armed timer survives saveNow and its firing performs one more
durable write even without any new mutation. -/
theorem saveNow_behavior (s : LogStore) :
    (LogStore.saveNow s).writes = s.writes + 1 ∧
    (LogStore.saveNow s).saveScheduled = false ∧
    (LogStore.saveNow s).savePending = false ∧
    (LogStore.saveNow s).timers = s.timers ∧
    (0 < s.timers → (LogStore.timerFire (LogStore.saveNow s)).writes = s.writes + 2) := by
  refine ⟨rfl, rfl, rfl, rfl, ?_⟩
  intro ht
  simp only [LogStore.saveNow, LogStore.timerFire]
  have : ¬ (s.timers = 0) := Nat.pos_iff_ne_zero.mp ht
  simp [this]

/-- Witness for C8's amended theorem at a concrete armed state. -/
theorem saveNow_behavior_witness :
    (LogStore.saveNow (LogStore.scheduleAsyncSave initStore)).writes =
      (LogStore.scheduleAsyncSave initStore).writes + 1 ∧
    (LogStore.saveNow (LogStore.scheduleAsyncSave initStore)).saveScheduled = false ∧
    (LogStore.saveNow (LogStore.scheduleAsyncSave initStore)).savePending = false ∧
    (LogStore.saveNow (LogStore.scheduleAsyncSave initStore)).timers =
      (LogStore.scheduleAsyncSave initStore).timers ∧
    (0 < (LogStore.scheduleAsyncSave initStore).timers →
      (LogStore.timerFire (LogStore.saveNow (LogStore.scheduleAsyncSave initStore))).writes =
        (LogStore.scheduleAsyncSave initStore).writes + 2) :=
  saveNow_behavior (LogStore.scheduleAsyncSave initStore)

/-! ## C4: mutations and the debounce machine -/

/-- C4 counterexample: a mutation by itself arms no timer (add and clear
only mark savePending and never call scheduleAsyncSave), so a mutation
followed by any timer activity produces zero durable writes — against
"N mutations issued within one debounce window produce exactly 1 durable
write". -/
theorem mutation_no_flush_counterexample :
    (applyEvents [StoreEv.add obsLogin 1000]).timers = 0 ∧
    (applyEvents [StoreEv.add obsLogin 1000]).saveScheduled = false ∧
    (applyEvents [StoreEv.add obsLogin 1000, StoreEv.fire, StoreEv.fire]).writes = 0 ∧
    (applyEvents [StoreEv.add obsLogin 1000, StoreEv.clear, StoreEv.add obsLogin 2000,
                  StoreEv.fire]).writes = 0 := by
  refine ⟨rfl, rfl, rfl, rfl⟩

/-! ## C7: classifyRequest score formula -/

/-- The built tag list contains "authentication" exactly when the
authentication regex matched. -/
theorem classifyTags_contains_auth (s5 s4 au ap sc inf biz pc : Bool) :
    (classifyTags s5 s4 au ap sc inf biz pc).contains "authentication" = au := by
  cases s5 <;> cases s4 <;> cases au <;> cases ap <;> cases sc <;> cases inf <;>
    cases biz <;> cases pc <;> rfl

/-- The built tag list contains "api-endpoint" exactly when the API-shape
regex matched. -/
theorem classifyTags_contains_api (s5 s4 au ap sc inf biz pc : Bool) :
    (classifyTags s5 s4 au ap sc inf biz pc).contains "api-endpoint" = ap := by
  cases s5 <;> cases s4 <;> cases au <;> cases ap <;> cases sc <;> cases inf <;>
    cases biz <;> cases pc <;> rfl

/-- Over the valid HTTP status range, `String(statusCode).startsWith('5')`
is exactly the 5xx test. -/
theorem status5xxTest_bounded :
    ∀ s, s < 600 → 100 ≤ s → status5xxTest s = decide (500 ≤ s ∧ s ≤ 599) := by
  decide

/-- C7: classifyRequest's score is 30 for a state-changing method plus 25
for a business-action keyword plus 20 when the authentication tag applies
plus 15 when the api-endpoint tag applies plus 10 for a 5xx status, with
critical = (score ≥ 50); and on the spec's example input (POST
api.example.com /api/users/login, status 200) the tags include
authentication, api-endpoint, state-change and business-logic, with
score 90 and critical true. -/
theorem classifyRequest_formula (m p h : String) (s : Nat) (pc : Bool)
    (hs : s = 0 ∨ (100 ≤ s ∧ s ≤ 599)) :
    ((RequestProcessor.classifyRequest m p h s pc).score =
      (if RequestProcessor.isStateChangingMethod m then 30 else 0) +
      (if RequestProcessor.hasActionWords p then 25 else 0) +
      (if authPattern p then 20 else 0) +
      (if apiPattern p then 15 else 0) +
      (if 500 ≤ s ∧ s ≤ 599 then 10 else 0)) ∧
    ((RequestProcessor.classifyRequest m p h s pc).critical =
      decide ((RequestProcessor.classifyRequest m p h s pc).score ≥ 50)) ∧
    ("authentication" ∈ loginClassification.tags ∧
     "api-endpoint" ∈ loginClassification.tags ∧
     "state-change" ∈ loginClassification.tags ∧
     "business-logic" ∈ loginClassification.tags ∧
     loginClassification.critical = true ∧
     loginClassification.score = 90) := by
  have h5 : status5xxTest s = decide (500 ≤ s ∧ s ≤ 599) := by
    rcases hs with rfl | ⟨h1, h2⟩
    · decide
    · exact status5xxTest_bounded s (by omega) h1
  refine ⟨?_, rfl, ?_⟩
  · simp only [RequestProcessor.classifyRequest, classifyTags_contains_auth,
      classifyTags_contains_api, h5]
    simp
  · refine ⟨?_, ?_, ?_, ?_, ?_, ?_⟩ <;> decide

/-- Witness for C7 at the spec's example input. -/
theorem classifyRequest_formula_witness :
    (RequestProcessor.classifyRequest "POST" "/api/users/login" "api.example.com" 200 true).score =
      (if RequestProcessor.isStateChangingMethod "POST" then 30 else 0) +
      (if RequestProcessor.hasActionWords "/api/users/login" then 25 else 0) +
      (if authPattern "/api/users/login" then 20 else 0) +
      (if apiPattern "/api/users/login" then 15 else 0) +
      (if 500 ≤ 200 ∧ 200 ≤ 599 then 10 else 0) :=
  (classifyRequest_formula "POST" "/api/users/login" "api.example.com" 200 true
    (Or.inr (by decide))).1

theorem idxGet_idxSet (idx : List (String × Nat)) (k : String) (v : Nat) (q : String) :
    idxGet (idxSet idx k v) q = if q = k then some v else idxGet idx q := by
  induction idx with
  | nil =>
    simp only [idxSet, idxGet, beq_iff_eq]
    by_cases h : q = k
    · simp [h]
    · simp [h, Ne.symm h]
  | cons p rest ih =>
    simp only [idxSet, idxGet, beq_iff_eq]
    by_cases h1 : p.1 = k
    · simp only [h1, if_pos rfl, idxGet, beq_iff_eq]
      by_cases h2 : q = k
      · simp [h2]
      · simp [h2, Ne.symm h2]
    · simp only [if_neg h1, idxGet, beq_iff_eq, ih]
      by_cases h3 : p.1 = q
      · have hqk : ¬ q = k := fun hh => h1 (h3.trans hh)
        simp [h3, hqk]
      · simp [h3]

theorem idxGet_none_iff (idx : List (String × Nat)) (k : String) :
    idxGet idx k = none ↔ k ∉ idx.map Prod.fst := by
  induction idx with
  | nil => simp [idxGet]
  | cons p rest ih =>
    simp only [idxGet, beq_iff_eq, List.map_cons, List.mem_cons]
    by_cases h : p.1 = k
    · simp [h]
    · simp [h, ih, Ne.symm h]

theorem idxSet_fresh (idx : List (String × Nat)) (k : String) (v : Nat)
    (h : idxGet idx k = none) :
    (idxSet idx k v).map Prod.fst = idx.map Prod.fst ++ [k] ∧
    (idxSet idx k v).length = idx.length + 1 := by
  induction idx with
  | nil => simp [idxSet]
  | cons p rest ih =>
    simp only [idxGet, beq_iff_eq] at h
    by_cases hp : p.1 = k
    · simp [hp] at h
    · simp only [idxSet, beq_iff_eq, if_neg hp, List.map_cons, List.length_cons]
      have := ih (by simpa [hp] using h)
      simp [this.1, this.2]

theorem storeWF_init : storeWF initStore := by
  refine ⟨rfl, List.nodup_nil, ?_, ?_⟩
  · intro fp i h
    simp [initStore, idxGet] at h
  · intro i e h
    simp [initStore] at h

theorem storeWF_add (s : LogStore) (e : LogEntry) (now : Nat) (hwf : storeWF s) :
    storeWF (LogStore.add s e now).1 := by
  obtain ⟨hlen, hnodup, hC, hD⟩ := hwf
  cases hidx : idxGet s.fingerprintIndex e.fingerprint with
  | some i =>
    obtain ⟨ex, hex, hfp⟩ := hC _ _ hidx
    have hi : i < s.logs.length := (List.getElem?_eq_some.mp hex).1
    simp only [LogStore.add, hidx, hex]
    refine ⟨by simpa using hlen, hnodup, ?_, ?_⟩
    · intro fp j hj
      obtain ⟨e', he', hfp'⟩ := hC _ _ hj
      by_cases hij : i = j
      · subst hij
        have hee : e' = ex := Option.some_inj.mp (he'.symm.trans hex)
        refine ⟨{ objAssign ex e with lastPatched := some now }, ?_, ?_⟩
        · rw [List.getElem?_set]
          simp [hi]
        · show e.fingerprint = fp
          rw [← hfp', hee, hfp]
      · refine ⟨e', ?_, hfp'⟩
        rw [List.getElem?_set, if_neg hij]
        exact he'
    · intro j e'' hj
      rw [List.getElem?_set] at hj
      by_cases hij : i = j
      · rw [if_pos hij, if_pos hi] at hj
        have he'' : e'' = { objAssign ex e with lastPatched := some now } :=
          (Option.some_inj.mp hj).symm
        subst he''
        show idxGet s.fingerprintIndex e.fingerprint = some j
        rw [← hij]
        exact hidx
      · rw [if_neg hij] at hj
        exact hD j e'' hj
  | none =>
    simp only [LogStore.add, hidx]
    obtain ⟨hkeys, hlen'⟩ := idxSet_fresh s.fingerprintIndex e.fingerprint s.logs.length hidx
    have hfresh : e.fingerprint ∉ s.fingerprintIndex.map Prod.fst :=
      (idxGet_none_iff _ _).mp hidx
    refine ⟨?_, ?_, ?_, ?_⟩
    · simp [hlen', hlen]
    · have hdisj : (s.fingerprintIndex.map Prod.fst).Disjoint [e.fingerprint] := by
        intro a ha hb
        rw [List.mem_singleton] at hb
        exact hfresh (hb ▸ ha)
      rw [hkeys, List.nodup_append]
      exact ⟨hnodup, List.nodup_singleton _, hdisj⟩
    · intro fp j hj
      rw [idxGet_idxSet] at hj
      by_cases hfpe : fp = e.fingerprint
      · rw [if_pos hfpe] at hj
        have hjl : j = s.logs.length := (Option.some_inj.mp hj).symm
        subst hjl
        exact ⟨{ e with receivedAt := some now }, List.getElem?_concat_length _ _, hfpe.symm⟩
      · rw [if_neg hfpe] at hj
        obtain ⟨e', he', hfp'⟩ := hC _ _ hj
        have hjlt : j < s.logs.length := (List.getElem?_eq_some.mp he').1
        refine ⟨e', ?_, hfp'⟩
        rw [List.getElem?_append_left hjlt]
        exact he'
    · intro j e'' hj
      by_cases hjlt : j < s.logs.length
      · rw [List.getElem?_append_left hjlt] at hj
        have hold := hD j e'' hj
        rw [idxGet_idxSet]
        have hne : e''.fingerprint ≠ e.fingerprint := by
          intro hcontra
          rw [hcontra] at hold
          rw [hidx] at hold
          exact absurd hold (by simp)
        rw [if_neg hne]
        exact hold
      · have hge : s.logs.length ≤ j := Nat.le_of_not_lt hjlt
        rw [List.getElem?_append_right hge] at hj
        have hj0 : j - s.logs.length = 0 := by
          by_contra hnz
          have : 1 ≤ j - s.logs.length := Nat.pos_of_ne_zero hnz
          rw [List.getElem?_eq_none (by simpa using this)] at hj
          exact absurd hj (by simp)
        rw [hj0] at hj
        have he'' : e'' = { e with receivedAt := some now } := by
          simpa using (Option.some_inj.mp hj).symm
        have hjeq : j = s.logs.length := by omega
        subst he''
        rw [idxGet_idxSet]
        show (if ({ e with receivedAt := some now } : LogEntry).fingerprint = e.fingerprint
          then some s.logs.length else idxGet s.fingerprintIndex ({ e with receivedAt := some now} : LogEntry).fingerprint) = some j
        rw [if_pos rfl, hjeq]

theorem storeWF_clear (s : LogStore) : storeWF (LogStore.clear s) := by
  refine ⟨rfl, List.nodup_nil, ?_, ?_⟩
  · intro fp i h
    simp [LogStore.clear, idxGet] at h
  · intro i e h
    simp [LogStore.clear] at h

theorem scheduleAsyncSave_logs (s : LogStore) :
    (LogStore.scheduleAsyncSave s).logs = s.logs ∧
    (LogStore.scheduleAsyncSave s).fingerprintIndex = s.fingerprintIndex ∧
    (LogStore.scheduleAsyncSave s).writes = s.writes := by
  unfold LogStore.scheduleAsyncSave
  split <;> exact ⟨rfl, rfl, rfl⟩

theorem timerFire_logs (s : LogStore) :
    (LogStore.timerFire s).logs = s.logs ∧
    (LogStore.timerFire s).fingerprintIndex = s.fingerprintIndex := by
  by_cases ht : s.timers = 0
  · simp [LogStore.timerFire, ht]
  · by_cases hp : s.savePending
    · simp [LogStore.timerFire, LogStore.scheduleAsyncSave, ht, hp]
    · simp [LogStore.timerFire, ht, hp]

theorem storeWF_of_same (s t : LogStore) (h1 : t.logs = s.logs)
    (h2 : t.fingerprintIndex = s.fingerprintIndex) (hwf : storeWF s) : storeWF t := by
  unfold storeWF
  rw [h1, h2]
  exact hwf

theorem storeWF_step (s : LogStore) (e : StoreEv) (hwf : storeWF s) :
    storeWF (stepEv s e) := by
  cases e with
  | add entry now => exact storeWF_add s entry now hwf
  | clear => exact storeWF_clear s
  | schedule =>
    exact storeWF_of_same s _ (scheduleAsyncSave_logs s).1 (scheduleAsyncSave_logs s).2.1 hwf
  | fire =>
    exact storeWF_of_same s _ (timerFire_logs s).1 (timerFire_logs s).2 hwf
  | saveNow => exact hwf

theorem storeWF_foldl (evs : List StoreEv) (s : LogStore) (hwf : storeWF s) :
    storeWF (evs.foldl stepEv s) := by
  induction evs generalizing s with
  | nil => exact hwf
  | cons e evs ih => exact ih (stepEv s e) (storeWF_step s e hwf)

theorem step_fps (s : LogStore) (e : StoreEv) :
    ∀ x ∈ (stepEv s e).logs.map LogEntry.fingerprint,
      x ∈ s.logs.map LogEntry.fingerprint ++ addedFingerprints [e] := by
  intro x hx
  rw [List.mem_append]
  cases e with
  | add entry now =>
    have hadded : addedFingerprints [StoreEv.add entry now] = [entry.fingerprint] := rfl
    rw [hadded, List.mem_singleton]
    cases hidx : idxGet s.fingerprintIndex entry.fingerprint with
    | some i =>
      simp only [stepEv, LogStore.add, hidx] at hx
      cases hex : s.logs[i]? with
      | some ex =>
        rw [hex] at hx
        rw [List.mem_map] at hx
        obtain ⟨y, hy, hxy⟩ := hx
        rcases List.mem_or_eq_of_mem_set hy with hyl | hym
        · exact Or.inl (hxy ▸ List.mem_map_of_mem _ hyl)
        · refine Or.inr ?_
          rw [← hxy, hym]
          rfl
      | none =>
        rw [hex] at hx
        exact Or.inl hx
    | none =>
      simp only [stepEv, LogStore.add, hidx] at hx
      rw [List.map_append, List.mem_append] at hx
      rcases hx with hx | hx
      · exact Or.inl hx
      · refine Or.inr ?_
        simpa using hx
  | clear => simp [stepEv, LogStore.clear] at hx
  | schedule =>
    rw [show stepEv s StoreEv.schedule = LogStore.scheduleAsyncSave s from rfl,
      (scheduleAsyncSave_logs s).1] at hx
    exact Or.inl hx
  | fire =>
    rw [show stepEv s StoreEv.fire = LogStore.timerFire s from rfl,
      (timerFire_logs s).1] at hx
    exact Or.inl hx
  | saveNow => exact Or.inl hx

theorem addedFingerprints_cons (e : StoreEv) (evs : List StoreEv) :
    addedFingerprints (e :: evs) = addedFingerprints [e] ++ addedFingerprints evs := by
  cases e <;> simp [addedFingerprints]

theorem fps_foldl (evs : List StoreEv) (s : LogStore) :
    ∀ x ∈ (evs.foldl stepEv s).logs.map LogEntry.fingerprint,
      x ∈ s.logs.map LogEntry.fingerprint ++ addedFingerprints evs := by
  induction evs generalizing s with
  | nil =>
    intro x hx
    simpa [addedFingerprints] using hx
  | cons e evs ih =>
    intro x hx
    have h1 := ih (stepEv s e) x hx
    rw [List.mem_append] at h1
    rw [addedFingerprints_cons]
    rcases h1 with h1 | h1
    · have h2 := step_fps s e x h1
      rw [List.mem_append] at h2
      rcases h2 with h2 | h2
      · exact List.mem_append_left _ h2
      · exact List.mem_append_right _ (List.mem_append_left _ h2)
    · exact List.mem_append_right _ (List.mem_append_right _ h1)

/-- C3: after any event sequence from the empty store, the fingerprint
index and the record list agree: the index has exactly one (distinct) key
per record, every index entry reaches a record bearing that fingerprint,
every record is found by the index under its own fingerprint, no two
records share a fingerprint, and every record's fingerprint was added at
some point of the run. -/
theorem store_invariant (evs : List StoreEv) :
    storeWF (applyEvents evs) ∧
    (∀ (i j : Nat) (ei ej : LogEntry), (applyEvents evs).logs[i]? = some ei →
      (applyEvents evs).logs[j]? = some ej → ei.fingerprint = ej.fingerprint → i = j) ∧
    (∀ r ∈ (applyEvents evs).logs, r.fingerprint ∈ addedFingerprints evs) := by
  have hwf : storeWF (applyEvents evs) := storeWF_foldl evs initStore storeWF_init
  refine ⟨hwf, ?_, ?_⟩
  · intro i j ei ej hi hj hfp
    have h1 := hwf.2.2.2 i ei hi
    have h2 := hwf.2.2.2 j ej hj
    rw [hfp] at h1
    rw [h1] at h2
    exact Option.some_inj.mp h2
  · intro r hr
    have := fps_foldl evs initStore r.fingerprint (List.mem_map_of_mem _ hr)
    simpa [initStore] using this

/-- Witness for C3 at a concrete event sequence. -/
theorem store_invariant_witness :
    storeWF (applyEvents [StoreEv.add obsLogin 1000, StoreEv.schedule, StoreEv.clear,
      StoreEv.add obsLogin 2000, StoreEv.add { obsLogin with fingerprint := "fp2" } 3000]) :=
  (store_invariant [StoreEv.add obsLogin 1000, StoreEv.schedule, StoreEv.clear,
    StoreEv.add obsLogin 2000, StoreEv.add { obsLogin with fingerprint := "fp2" } 3000]).1

/-- C1 counterexample: upserting the identical observation twice leaves
discoveryCount at the candidate's value 1 — not 2 as the claim requires —
because Object.assign overwrites the field instead of adding the hint. -/
theorem add_counterexample :
    (LogStore.add (LogStore.add initStore obsLogin 1000).1 obsLogin 2000).1.logs =
      [{ obsLogin with receivedAt := some 1000, lastPatched := some 2000 }] ∧
    ((LogStore.add (LogStore.add initStore obsLogin 1000).1 obsLogin 2000).1.logs.map
        LogEntry.discoveryCount == [some 2]) = false ∧
    (LogStore.add (LogStore.add initStore obsLogin 1000).1 obsLogin 2000).1.logs.map
        LogEntry.discoveryCount = [some 1] := by
  refine ⟨?_, ?_, ?_⟩ <;> decide

/-- C1 amended: on a fingerprint hit, add updates the existing record in
place by Object.assign field overwrite — every field present on the
candidate replaces the stored one and absent fields are retained, so
statusCodes and queryKeys are replaced (not unioned) and discoveryCount
becomes the candidate's value (not incremented) — and lastPatched is set
to now. -/
theorem add_overwrite (s : LogStore) (e : LogEntry) (now i : Nat) (ex : LogEntry)
    (hidx : idxGet s.fingerprintIndex e.fingerprint = some i)
    (hex : s.logs[i]? = some ex) :
    (LogStore.add s e now).1.logs =
      s.logs.set i { objAssign ex e with lastPatched := some now } ∧
    (LogStore.add s e now).2 = false ∧
    (LogStore.add s e now).1.fingerprintIndex = s.fingerprintIndex ∧
    (∀ v, e.statusCodes = some v → (objAssign ex e).statusCodes = some v) ∧
    (e.statusCodes = none → (objAssign ex e).statusCodes = ex.statusCodes) ∧
    (∀ v, e.queryKeys = some v → (objAssign ex e).queryKeys = some v) ∧
    (e.queryKeys = none → (objAssign ex e).queryKeys = ex.queryKeys) ∧
    (∀ v, e.discoveryCount = some v → (objAssign ex e).discoveryCount = some v) ∧
    (e.discoveryCount = none → (objAssign ex e).discoveryCount = ex.discoveryCount) ∧
    ({ objAssign ex e with lastPatched := some now } : LogEntry).lastPatched = some now := by
  refine ⟨?_, ?_, ?_, ?_, ?_, ?_, ?_, ?_, ?_, rfl⟩
  · simp [LogStore.add, hidx, hex]
  · simp [LogStore.add, hidx, hex]
  · simp [LogStore.add, hidx, hex]
  · intro v hv; simp [objAssign, hv]
  · intro hv; simp [objAssign, hv]
  · intro v hv; simp [objAssign, hv]
  · intro hv; simp [objAssign, hv]
  · intro v hv; simp [objAssign, hv]
  · intro hv; simp [objAssign, hv]

/-- Witness for C1's amended theorem at the double-upsert instance. -/
theorem add_overwrite_witness :
    (LogStore.add (LogStore.add initStore obsLogin 1000).1 obsLogin 2000).1.logs =
      (LogStore.add initStore obsLogin 1000).1.logs.set 0
        { objAssign { obsLogin with receivedAt := some 1000 } obsLogin with
          lastPatched := some 2000 } :=
  (add_overwrite (LogStore.add initStore obsLogin 1000).1 obsLogin 2000 0
    { obsLogin with receivedAt := some 1000 } (by decide) (by decide)).1

theorem schedN_scheduled (n : Nat) (s : LogStore) (h : s.saveScheduled = true) :
    (schedN n s).timers = s.timers ∧ (schedN n s).writes = s.writes ∧
    (schedN n s).saveScheduled = true := by
  induction n generalizing s with
  | zero => exact ⟨rfl, rfl, h⟩
  | succ n ih =>
    have hs : LogStore.scheduleAsyncSave s = { s with savePending := true } := by
      simp [LogStore.scheduleAsyncSave, h]
    rw [show schedN (n + 1) s = schedN n (LogStore.scheduleAsyncSave s) from rfl, hs]
    exact ih { s with savePending := true } h

/-- C4 amended: add and clear only mark savePending — they arm no timer,
change no flag, and perform no write, so mutations alone never produce a
durable write; flush timers are armed only by scheduleAsyncSave, which is
coalesced: with a flush already scheduled a further call only marks
savePending and arms no second timer, so a burst of N ≥ 1 scheduleAsyncSave
calls arms exactly one timer and performs no write; each timer firing
performs exactly one durable write. -/
theorem debounce_behavior :
    (∀ evs (e : LogEntry) (now : Nat),
      (LogStore.add (applyEvents evs) e now).1.timers = (applyEvents evs).timers ∧
      (LogStore.add (applyEvents evs) e now).1.saveScheduled = (applyEvents evs).saveScheduled ∧
      (LogStore.add (applyEvents evs) e now).1.writes = (applyEvents evs).writes ∧
      (LogStore.add (applyEvents evs) e now).1.savePending = true) ∧
    (∀ s : LogStore, (LogStore.clear s).timers = s.timers ∧
      (LogStore.clear s).saveScheduled = s.saveScheduled ∧
      (LogStore.clear s).writes = s.writes ∧ (LogStore.clear s).savePending = true) ∧
    (∀ s : LogStore, s.saveScheduled = true →
      LogStore.scheduleAsyncSave s = { s with savePending := true }) ∧
    (∀ s : LogStore, s.saveScheduled = false →
      LogStore.scheduleAsyncSave s = { s with saveScheduled := true, timers := s.timers + 1 }) ∧
    (∀ (s : LogStore) (n : Nat), s.saveScheduled = false →
      (schedN (n + 1) s).timers = s.timers + 1 ∧ (schedN (n + 1) s).writes = s.writes) ∧
    (∀ s : LogStore, 0 < s.timers → (LogStore.timerFire s).writes = s.writes + 1) := by
  refine ⟨?_, fun s => ⟨rfl, rfl, rfl, rfl⟩, ?_, ?_, ?_, ?_⟩
  · intro evs e now
    have hwf : storeWF (applyEvents evs) := storeWF_foldl evs initStore storeWF_init
    cases hidx : idxGet (applyEvents evs).fingerprintIndex e.fingerprint with
    | some i =>
      obtain ⟨ex, hex, _⟩ := hwf.2.2.1 _ _ hidx
      simp [LogStore.add, hidx, hex]
    | none => simp [LogStore.add, hidx]
  · intro s h
    simp [LogStore.scheduleAsyncSave, h]
  · intro s h
    simp [LogStore.scheduleAsyncSave, h]
  · intro s n h
    have hs : LogStore.scheduleAsyncSave s =
        { s with saveScheduled := true, timers := s.timers + 1 } := by
      simp [LogStore.scheduleAsyncSave, h]
    rw [show schedN (n + 1) s = schedN n (LogStore.scheduleAsyncSave s) from rfl, hs]
    have hpost := schedN_scheduled n
      { s with saveScheduled := true, timers := s.timers + 1 } rfl
    exact ⟨hpost.1, hpost.2.1⟩
  · intro s ht
    have ht0 : ¬ s.timers = 0 := Nat.pos_iff_ne_zero.mp ht
    by_cases hp : s.savePending
    · simp [LogStore.timerFire, LogStore.scheduleAsyncSave, ht0, hp]
    · simp [LogStore.timerFire, ht0, hp]

/-- Witness for C4's amended theorem at concrete states. -/
theorem debounce_behavior_witness :
    LogStore.scheduleAsyncSave initStore =
      { initStore with saveScheduled := true, timers := initStore.timers + 1 } ∧
    ((schedN 3 initStore).timers = initStore.timers + 1 ∧
     (schedN 3 initStore).writes = initStore.writes) ∧
    (LogStore.timerFire (LogStore.scheduleAsyncSave initStore)).writes =
      (LogStore.scheduleAsyncSave initStore).writes + 1 :=
  ⟨debounce_behavior.2.2.2.1 initStore rfl,
   debounce_behavior.2.2.2.2.1 initStore 2 rfl,
   debounce_behavior.2.2.2.2.2 (LogStore.scheduleAsyncSave initStore) (by decide)⟩

/-! ## C9: session fingerprint cache bound and eviction -/

theorem newerFirst_trans : ∀ a b c, newerFirst a b = true → newerFirst b c = true →
    newerFirst a c = true := by
  intro a b c hab hbc
  simp only [newerFirst, decide_eq_true_eq] at *
  omega

theorem newerFirst_total : ∀ a b, (newerFirst a b || newerFirst b a) = true := by
  intro a b
  simp only [newerFirst, Bool.or_eq_true, decide_eq_true_eq]
  omega

/-- C9: after every updateFingerprint call the cache holds at most
SESSION_FINGERPRINT_LIMIT entries; the survivors all come unchanged (same
fingerprint, firstSeen and count) from the pre-prune cache; when the
pre-prune cache exceeds the limit, exactly SESSION_FINGERPRINT_LIMIT
entries are retained (otherwise nothing is dropped), and every dropped
entry's firstSeen is at most every retained entry's firstSeen — the
newest-first-seen are kept. -/
theorem session_cache_bound (cache : List (String × SessEntry)) (fp : String) (now : Nat) :
    (FingerprintEngine.updateFingerprint cache fp now).length ≤ SESSION_FINGERPRINT_LIMIT ∧
    ((FingerprintEngine.updateFingerprint cache fp now).all
      (fun e => (sessionInsert cache fp now).contains e)) = true ∧
    (if (sessionInsert cache fp now).length > SESSION_FINGERPRINT_LIMIT
      then (FingerprintEngine.updateFingerprint cache fp now).length = SESSION_FINGERPRINT_LIMIT
      else FingerprintEngine.updateFingerprint cache fp now = sessionInsert cache fp now) ∧
    ((((sessionInsert cache fp now).mergeSort newerFirst).drop SESSION_FINGERPRINT_LIMIT).all
      (fun dropped => (FingerprintEngine.updateFingerprint cache fp now).all
        (fun kept => newerFirst kept dropped)) = true) := by
  have hperm := List.mergeSort_perm (sessionInsert cache fp now) newerFirst
  have hsorted := List.sorted_mergeSort newerFirst_trans newerFirst_total
    (sessionInsert cache fp now)
  by_cases hlen : (sessionInsert cache fp now).length > SESSION_FINGERPRINT_LIMIT
  · have hupd : FingerprintEngine.updateFingerprint cache fp now =
        ((sessionInsert cache fp now).mergeSort newerFirst).take SESSION_FINGERPRINT_LIMIT := by
      simp [FingerprintEngine.updateFingerprint, pruneOldFingerprints, hlen]
    have hslen : ((sessionInsert cache fp now).mergeSort newerFirst).length =
        (sessionInsert cache fp now).length := hperm.length_eq
    refine ⟨?_, ?_, ?_, ?_⟩
    · rw [hupd, List.length_take]
      exact min_le_left _ _
    · rw [hupd, List.all_eq_true]
      intro x hx
      have hx2 : x ∈ (sessionInsert cache fp now).mergeSort newerFirst :=
        (List.take_sublist _ _).mem hx
      have hx3 : x ∈ sessionInsert cache fp now := hperm.mem_iff.mp hx2
      exact List.elem_iff.mpr hx3
    · rw [if_pos hlen, hupd, List.length_take, hslen]
      omega
    · rw [List.all_eq_true]
      intro dropped hdrop
      rw [List.all_eq_true]
      intro kept hkept
      rw [hupd] at hkept
      have hsplit : List.Pairwise (fun a b => newerFirst a b = true)
          (((sessionInsert cache fp now).mergeSort newerFirst).take SESSION_FINGERPRINT_LIMIT ++
           ((sessionInsert cache fp now).mergeSort newerFirst).drop SESSION_FINGERPRINT_LIMIT) := by
        rw [List.take_append_drop]
        exact hsorted
      exact (List.pairwise_append.mp hsplit).2.2 kept hkept dropped hdrop
  · have hupd : FingerprintEngine.updateFingerprint cache fp now = sessionInsert cache fp now := by
      simp [FingerprintEngine.updateFingerprint, pruneOldFingerprints, hlen]
    have hdropnil : ((sessionInsert cache fp now).mergeSort newerFirst).drop
        SESSION_FINGERPRINT_LIMIT = [] := by
      rw [List.drop_eq_nil_iff, hperm.length_eq]
      omega
    refine ⟨?_, ?_, ?_, ?_⟩
    · rw [hupd]; omega
    · rw [hupd, List.all_eq_true]
      intro x hx
      exact List.elem_iff.mpr hx
    · rw [if_neg hlen]
      exact hupd
    · rw [hdropnil]
      rfl

/-- Witness for C9 at a concrete cache state. -/
theorem session_cache_bound_witness :
    (FingerprintEngine.updateFingerprint [("fp-a", ⟨5, 2⟩)] "fp-b" 9).length ≤
      SESSION_FINGERPRINT_LIMIT ∧
    ((FingerprintEngine.updateFingerprint [("fp-a", ⟨5, 2⟩)] "fp-b" 9).all
      (fun e => (sessionInsert [("fp-a", ⟨5, 2⟩)] "fp-b" 9).contains e)) = true :=
  ⟨(session_cache_bound [("fp-a", ⟨5, 2⟩)] "fp-b" 9).1,
   (session_cache_bound [("fp-a", ⟨5, 2⟩)] "fp-b" 9).2.1⟩

/-- Witness for C2 at the spec's example triple. -/
theorem fingerprint_agreement_witness :
    FingerprintEngine.generateFingerprint "POST" "api.example.com" "/api/users/login" =
      ExtensionFilter.generateFingerprint "POST" "api.example.com" "/api/users/login" ∧
    ExtensionFilter.generateFingerprint "POST" "api.example.com" "/api/users/login" =
      specFingerprint "POST" "api.example.com" "/api/users/login" :=
  fingerprint_agreement "POST" "api.example.com" "/api/users/login"

/-- Witness for C5's amended theorem at concrete file states. -/
theorem load_self_healing_witness :
    (LogStore.load FileContent.unparseable true).isOk = true ∧
    LogStore.load FileContent.absent true =
      Except.ok { logs := [], fingerprintIndex := [], saveAttempts := 1,
                  errorLogged := false, finalFile := FileContent.jsonArr [] } :=
  ⟨load_self_healing.1 FileContent.unparseable true,
   load_self_healing.2.1 true⟩
